import Mathlib

/-!
Verification of the oidc-exchange credential broker.

This file shallowly embeds the Rust sources of the repository:
strings are modelled as lists of characters, machine integers as
`Nat`/`Int`, fallible code as `Except`, asynchronous HTTP calls as
oracle functions passed in as parameters, and mutable state
(the visibility cache) as explicit state passing.  Outbound calls are
additionally instrumented with an explicit trace so that theorems can
speak about which upstream requests a code path issues.
-/

/-- Rust `String`/`&str`, modelled as a list of characters. -/
abbrev Str := List Char

instance instDecEqExcept {ε α : Type} [DecidableEq ε] [DecidableEq α] :
    DecidableEq (Except ε α) := fun x y =>
  match x, y with
  | .ok a, .ok b =>
    if h : a = b then .isTrue (by rw [h]) else .isFalse (fun hc => h (Except.ok.inj hc))
  | .error a, .error b =>
    if h : a = b then .isTrue (by rw [h]) else .isFalse (fun hc => h (Except.error.inj hc))
  | .ok _, .error _ => .isFalse (fun hc => Except.noConfusion hc)
  | .error _, .ok _ => .isFalse (fun hc => Except.noConfusion hc)

/-! ## src/providers/github.rs -/

/-- The GitHub OIDC claim set (`GithubOidcClaims` in
`src/providers/github.rs`).  Every field is an optional string;
the same shape is used both for presented claims and for claim
constraints. -/
structure GithubOidcClaims where
  jti : Option Str
  sub : Option Str
  aud : Option Str
  ref_ : Option Str
  repository : Option Str
  repository_owner : Option Str
  actor_id : Option Str
  repository_id : Option Str
  repository_owner_id : Option Str
  actor : Option Str
  workflow : Option Str
  head_ref : Option Str
  base_ref : Option Str
  event_name : Option Str
  ref_type : Option Str
  job_workflow_ref : Option Str
  iss : Option Str
deriving DecidableEq, Repr

/-- The empty claim set: every field absent.  Convenience value for
concrete instances; the source builds such values by deserialization. -/
def GithubOidcClaims.none_ : GithubOidcClaims :=
  ⟨none, none, none, none, none, none, none, none, none, none, none, none,
   none, none, none, none, none⟩

/-- `check_claim` from `src/providers/github.rs`:
`a.and_then(|required| b.map(|supplied| required == supplied).or(Some(false))).unwrap_or(true)`. -/
def check_claim (a b : Option Str) : Bool :=
  (a.bind (fun required => (b.map (fun supplied => required == supplied)).or (some false))).getD true

/-- The claim-set union (`Claims` in `src/providers/mod.rs`);
currently a single `GitHub` variant. -/
inductive Claims where
  | GitHub (c : GithubOidcClaims)
deriving DecidableEq, Repr

/-- `GithubOidcClaims::validate` (the `ValidationClaims` impl in
`src/providers/github.rs`): field-wise `check_claim` over all
seventeen fields, combined with `&&`. -/
def GithubOidcClaims.validate (self : GithubOidcClaims) (claims : Claims) : Bool :=
  match claims with
  | .GitHub claims =>
    check_claim self.jti claims.jti
      && check_claim self.sub claims.sub
      && check_claim self.aud claims.aud
      && check_claim self.ref_ claims.ref_
      && check_claim self.repository claims.repository
      && check_claim self.repository_owner claims.repository_owner
      && check_claim self.actor_id claims.actor_id
      && check_claim self.repository_id claims.repository_id
      && check_claim self.repository_owner_id claims.repository_owner_id
      && check_claim self.actor claims.actor
      && check_claim self.workflow claims.workflow
      && check_claim self.head_ref claims.head_ref
      && check_claim self.base_ref claims.base_ref
      && check_claim self.event_name claims.event_name
      && check_claim self.ref_type claims.ref_type
      && check_claim self.job_workflow_ref claims.job_workflow_ref
      && check_claim self.iss claims.iss

/-- `Claims::validate` (the `ValidationClaims` impl in
`src/providers/mod.rs`). -/
def Claims.validate (self : Claims) (claims : Claims) : Bool :=
  match self with
  | .GitHub github_claims => github_claims.validate claims

/-- The seventeen claim fields, as projections, in source order.  Used
to state field-wise properties of the matcher. -/
def claimFields : List (GithubOidcClaims → Option Str) :=
  [(·.jti), (·.sub), (·.aud), (·.ref_), (·.repository), (·.repository_owner),
   (·.actor_id), (·.repository_id), (·.repository_owner_id), (·.actor),
   (·.workflow), (·.head_ref), (·.base_ref), (·.event_name), (·.ref_type),
   (·.job_workflow_ref), (·.iss)]

/-! ## src/oidc.rs

The verifier builds on the `jsonwebtoken` crate.  The parts of that
crate the source calls (`Validation::new`, `Validation::set_issuer`,
`jwk::JwkSet::find`, `DecodingKey::from_jwk`, `decode`) are modelled
below following the crate's current (9.x) semantics.  A JWT is embedded
already parsed (header and payload as records); the signature is
abstracted: a token records which key material signed it, and signature
verification compares that against the decoding key's material. -/

/-- `jsonwebtoken::Algorithm`. -/
inductive Algorithm where
  | HS256 | HS384 | HS512
  | ES256 | ES384
  | RS256 | RS384 | RS512
  | PS256 | PS384 | PS512
  | EdDSA
deriving DecidableEq, Repr

/-- `jsonwebtoken::jwk::KeyAlgorithm` (the JWK `alg` values). -/
inductive KeyAlgorithm where
  | HS256 | HS384 | HS512
  | ES256 | ES384
  | RS256 | RS384 | RS512
  | PS256 | PS384 | PS512
  | EdDSA
  | RSA1_5 | RSA_OAEP | RSA_OAEP_256
deriving DecidableEq, Repr

/-- `jsonwebtoken::AlgorithmFamily`: the kind of key an algorithm needs. -/
inductive AlgorithmFamily where
  | Hmac | Rsa | Ec | Ed
deriving DecidableEq, Repr

/-- The family of each algorithm (`Algorithm::family` in jsonwebtoken). -/
def Algorithm.family : Algorithm → AlgorithmFamily
  | .HS256 | .HS384 | .HS512 => .Hmac
  | .ES256 | .ES384 => .Ec
  | .RS256 | .RS384 | .RS512 | .PS256 | .PS384 | .PS512 => .Rsa
  | .EdDSA => .Ed

/-- A JWK.  `kid` and `key_algorithm` are the fields of
`jwk.common` the source reads; `family` abstracts the kind of key
parameters the JWK carries (RSA, EC, ...), and `material` abstracts the
key parameters themselves. -/
structure Jwk where
  kid : Option Str
  key_algorithm : Option KeyAlgorithm
  family : AlgorithmFamily
  material : Str
deriving DecidableEq, Repr

/-- `jsonwebtoken::jwk::JwkSet`. -/
structure JwkSet where
  keys : List Jwk
deriving DecidableEq, Repr

/-- `JwkSet::find`: the first key whose `kid` matches. -/
def JwkSet.find (s : JwkSet) (kid : Str) : Option Jwk :=
  s.keys.find? (fun jwk => jwk.kid == some kid)

/-- `jsonwebtoken::DecodingKey`, keeping the key family and the
abstracted key material. -/
structure DecodingKey where
  family : AlgorithmFamily
  material : Str
deriving DecidableEq, Repr

/-- `DecodingKey::from_jwk`, modelled as always succeeding (the
`InvalidKey` arm of the source corresponds to malformed key parameters,
which the abstracted key material cannot represent). -/
def DecodingKey.from_jwk (jwk : Jwk) : DecodingKey :=
  ⟨jwk.family, jwk.material⟩

/-- `jsonwebtoken::Validation`. -/
structure Validation where
  required_spec_claims : List Str
  leeway : Nat
  validate_exp : Bool
  validate_nbf : Bool
  validate_aud : Bool
  aud : Option (List Str)
  iss : Option (List Str)
  sub : Option Str
  algorithms : List Algorithm
deriving DecidableEq, Repr

/-- `Validation::new`: requires `exp`, 60 s leeway, validates `exp` and
`aud`, no expected audience/issuer/subject, the single given algorithm. -/
def Validation.new (alg : Algorithm) : Validation :=
  { required_spec_claims := ["exp".toList]
    leeway := 60
    validate_exp := true
    validate_nbf := false
    validate_aud := true
    aud := none
    iss := none
    sub := none
    algorithms := [alg] }

/-- `Validation::set_issuer`. -/
def Validation.set_issuer (v : Validation) (issuers : List Str) : Validation :=
  { v with iss := some issuers }

/-- The JWT header fields the source reads (`decode_header` result). -/
structure JwtHeader where
  alg : Algorithm
  kid : Option Str
deriving DecidableEq, Repr

/-- A parsed JWT.  The payload holds the registered `exp`/`nbf` claims
(absent from `GithubOidcClaims`) next to the provider claim fields;
`iss`, `aud` and `sub` for standard-claim validation are the payload's
fields of the same name, i.e. `claims.iss`, `claims.aud`, `claims.sub`.
`signedBy` abstracts the signature: it records the material of the key
that actually signed the token. -/
structure Jwt where
  header : JwtHeader
  payload_exp : Option Int
  payload_nbf : Option Int
  claims : GithubOidcClaims
  signedBy : Str
deriving DecidableEq, Repr

/-- The `jsonwebtoken::errors::ErrorKind` values the model can surface. -/
inductive JwtErrorKind where
  | missingAlgorithm
  | invalidAlgorithm
  | invalidSignature
  | missingRequiredClaim
  | expiredSignature
  | immatureSignature
  | invalidSubject
  | invalidAudience
  | invalidIssuer
deriving DecidableEq, Repr

/-- Whether a registered claim is present in the token's payload, for
the `required_spec_claims` check. -/
def claimPresent (token : Jwt) (name : Str) : Bool :=
  if name = "exp".toList then token.payload_exp.isSome
  else if name = "nbf".toList then token.payload_nbf.isSome
  else if name = "iss".toList then token.claims.iss.isSome
  else if name = "aud".toList then token.claims.aud.isSome
  else if name = "sub".toList then token.claims.sub.isSome
  else true

/-- Standard-claim validation of jsonwebtoken's `decode` (9.x):
required claims, `exp`/`nbf` with leeway, then `sub`, `aud` and `iss`
against the expectations stored in the `Validation`.  With
`validate_aud` set and no expected audience, a token carrying an `aud`
claim is rejected. -/
def validateClaims (token : Jwt) (v : Validation) (now : Int) : Except JwtErrorKind Unit :=
  if ¬ v.required_spec_claims.all (claimPresent token) then
    .error .missingRequiredClaim
  else if v.validate_exp &&
      (match token.payload_exp with
       | some e => decide (e < now - (v.leeway : Int))
       | none => false) then
    .error .expiredSignature
  else if v.validate_nbf &&
      (match token.payload_nbf with
       | some n => decide (n > now + (v.leeway : Int))
       | none => false) then
    .error .immatureSignature
  else if (match token.claims.sub, v.sub with
           | some s, some expected => s != expected
           | _, _ => false) then
    .error .invalidSubject
  else
    match token.claims.aud, v.aud with
    | some _, none =>
      if v.validate_aud then .error .invalidAudience else checkIss token v
    | some a, some expected =>
      if v.validate_aud ∧ ¬ expected.contains a then .error .invalidAudience
      else checkIss token v
    | none, some _ =>
      if v.validate_aud then .error .missingRequiredClaim else checkIss token v
    | none, none => checkIss token v
where
  checkIss (token : Jwt) (v : Validation) : Except JwtErrorKind Unit :=
    match token.claims.iss, v.iss with
    | some i, some expected =>
      if ¬ expected.contains i then .error .invalidIssuer else .ok ()
    | none, some _ => .error .missingRequiredClaim
    | _, none => .ok ()

/-- `jsonwebtoken::decode::<Claims>`: check the configured algorithms
(non-empty, compatible with the key family, containing the header's
algorithm), verify the signature, validate the standard claims, and
return the deserialized claim set. -/
def jwtDecode (token : Jwt) (key : DecodingKey) (v : Validation) (now : Int) :
    Except JwtErrorKind Claims :=
  if v.algorithms = [] then .error .missingAlgorithm
  else if v.algorithms.any (fun alg => alg.family ≠ key.family) then .error .invalidAlgorithm
  else if token.header.alg ∉ v.algorithms then .error .invalidAlgorithm
  else if token.signedBy ≠ key.material then .error .invalidSignature
  else
    match validateClaims token v now with
    | .error e => .error e
    | .ok _ => .ok (.GitHub token.claims)

/-- `OidcError` from `src/oidc.rs`. -/
inductive OidcError where
  | invalidOidcConfig
  | invalidHeader
  | invalidToken (e : JwtErrorKind)
  | invalidKey
  | missingKid
  | missingKeyAlgorithm
  | unknownKid (kid : Str)
  | unsupportedAlgorithm (ka : KeyAlgorithm)
  | validationFailed
  | request
deriving DecidableEq, Repr

/-- `key_algo_to_algo` from `src/oidc.rs`. -/
def key_algo_to_algo (key_algorithm : KeyAlgorithm) : Except OidcError Algorithm :=
  match key_algorithm with
  | .HS256 => .ok .HS256
  | .HS384 => .ok .HS384
  | .HS512 => .ok .HS512
  | .ES256 => .ok .ES256
  | .ES384 => .ok .ES384
  | .RS256 => .ok .RS256
  | .RS384 => .ok .RS384
  | .RS512 => .ok .RS512
  | .PS256 => .ok .PS256
  | .PS384 => .ok .PS384
  | .PS512 => .ok .PS512
  | .EdDSA => .ok .EdDSA
  | _ => .error (.unsupportedAlgorithm key_algorithm)

/-- `ResolvedOidcConfig` from `src/oidc.rs`. -/
structure ResolvedOidcConfig where
  issuer : Str
  jwks : JwkSet
  subject_types_supported : List Str
  response_types_supported : List Str
  claims_supported : List Str
  id_token_signing_alg_values_supported : List Algorithm
  scopes_supported : List Str
deriving DecidableEq, Repr

/-- The validator constructed inside `ResolvedOidcConfig::validate`
(`src/oidc.rs` lines 110–115): `Validation::new` with the algorithm
taken from the JWK's `key_algorithm` (not from the token header),
followed by `set_issuer(&[&self.issuer])`.  Nothing else is set on the
validator — in particular no accepted audience. -/
def ResolvedOidcConfig.buildValidation (cfg : ResolvedOidcConfig) (jwk : Jwk) :
    Except OidcError Validation :=
  match jwk.key_algorithm with
  | none => .error .missingKeyAlgorithm
  | some ka =>
    match key_algo_to_algo ka with
    | .error e => .error e
    | .ok alg => .ok ((Validation.new alg).set_issuer [cfg.issuer])

/-- `ResolvedOidcConfig::validate` from `src/oidc.rs`.  The embedding
receives the token already parsed, so the `decode_header` /
`InvalidHeader` failure mode cannot arise here. -/
def ResolvedOidcConfig.validate (cfg : ResolvedOidcConfig) (token : Jwt) (claims : Claims)
    (now : Int) : Except OidcError Unit :=
  match token.header.kid with
  | none => .error .missingKid
  | some kid =>
    match cfg.jwks.find kid with
    | none => .error (.unknownKid kid)
    | some jwk =>
      let decoding_key := DecodingKey.from_jwk jwk
      match cfg.buildValidation jwk with
      | .error e => .error e
      | .ok validation =>
        match jwtDecode token decoding_key validation now with
        | .error e => .error (.invalidToken e)
        | .ok token_claims =>
          if claims.validate token_claims then .ok () else .error .validationFailed

/-- A concrete RSA JWK (kid `k1`, JWK alg `RS256`). -/
def jwk0 : Jwk :=
  ⟨some "k1".toList, some .RS256, .Rsa, "rsa-key-1".toList⟩

/-- A concrete resolved OIDC configuration holding `jwk0`. -/
def oidcConfig0 : ResolvedOidcConfig :=
  ⟨"https://example.test/oidc".toList, ⟨[jwk0]⟩, [], [], [], [.RS256], []⟩

/-! ## src/token/github.rs

The GitHub minter.  HTTP calls go through an oracle (`GhHttp`); every
outbound request is also recorded in a trace so theorems can state
which upstream calls a code path performs.  Signing the GitHub App JWT
is a local computation (no outbound call) and always succeeds once the
RSA key was loaded at construction, so the model elides the JWT value
itself. -/

/-- `GitHubTokenRequest` from `src/token/github.rs`. -/
structure GitHubTokenRequest where
  repositories : List Str
  permissions : List Str
deriving DecidableEq, Repr

/-- The `Token` response type returned by the minters (declared in the
newer `endpoints.rs`, used by `src/token/github.rs` and
`src/token/oxide.rs`). -/
structure Token where
  access_token : Str
deriving DecidableEq, Repr

/-- `GitHubTokenError` from `src/token/github.rs`.  Error payloads that
wrap foreign error types (`io::Error`, `jsonwebtoken` errors,
`reqwest::Error`) are elided; `GitHubError` keeps the URL, HTTP status
and message the source keeps. -/
inductive GitHubTokenError where
  | noCredentials
  | readPrivateKey (path : Str)
  | loadPrivateKey
  | encodeJwt
  | notAGitHubRepository (repo : Str)
  | differentOrgs
  | noRepositories
  | http
  | gitHubError (url : Str) (status : Nat) (message : Str)
  | duplicatePermission (name : Str)
  | notAPermission (perm : Str)
  | appNotInstalled (ns : Str)
deriving DecidableEq, Repr

/-- The minter's configured state (`State` in `src/token/github.rs`);
the private key itself is held abstractly by the HTTP oracle. -/
structure GitHubState where
  client_id : Str
deriving DecidableEq, Repr

/-- One outbound GitHub HTTP request. -/
inductive GhCall where
  | installation (kind ns : Str)
  | accessTokens (id : Nat)
  | repoVisibility (ns name : Str)
deriving DecidableEq, Repr

/-- Oracle for the GitHub REST API: the outcome of each request the
minter can issue (already run through `github_request`'s success /
error-body handling). -/
structure GhHttp where
  installation : Str → Str → Except GitHubTokenError Nat
  accessTokens : Nat → List Str → List (Str × Str) → Except GitHubTokenError Str
  repoVisibility : Str → Str → Except GitHubTokenError Str

/-- The `"orgs"` installation-lookup kind. -/
def kindOrgs : Str := "orgs".toList

/-- The `"users"` installation-lookup kind. -/
def kindUsers : Str := "users".toList

/-- Whether an error is the `GitHubError(_, StatusCode::NOT_FOUND, _)`
shape that the installation-discovery loop treats as "try the next
kind". -/
def GitHubTokenError.isNotFound : GitHubTokenError → Bool
  | .gitHubError _ status _ => status == 404
  | _ => false

/-- Rust `str::split_once`: split at the first occurrence of `sep`. -/
def splitOnce : Str → Char → Option (Str × Str)
  | [], _ => none
  | c :: rest, sep =>
    if c = sep then some ([], rest)
    else (splitOnce rest sep).map (fun p => (c :: p.1, p.2))

/-- The repository-partition loop of `GitHubTokens::get`
(`src/token/github.rs` lines 80–93): each repository must be
`namespace/name` with no further `/`; all namespaces must coincide. -/
def partitionRepos : List Str → Option Str → List Str →
    Except GitHubTokenError (Option Str × List Str)
  | [], found, acc => .ok (found, acc)
  | repo :: rest, found, acc =>
    match splitOnce repo '/' with
    | some (ns, name) =>
      if name.contains '/' then .error (.notAGitHubRepository repo)
      else if found.isSome ∧ found ≠ some ns then .error .differentOrgs
      else partitionRepos rest (some ns) (acc ++ [name])
    | none => .error (.notAGitHubRepository repo)

/-- The permission-conversion loop of `GitHubTokens::get`
(`src/token/github.rs` lines 96–107): each permission must be
`name:level` with no `/` in the name; duplicate names are rejected. -/
def buildPermissions : List Str → List (Str × Str) →
    Except GitHubTokenError (List (Str × Str))
  | [], acc => .ok acc
  | perm :: rest, acc =>
    match splitOnce perm ':' with
    | some (name, level) =>
      if name.contains '/' then .error (.notAPermission perm)
      else if (acc.lookup name).isSome then .error (.duplicatePermission name)
      else buildPermissions rest (acc ++ [(name, level)])
    | none => .error (.notAPermission perm)

/-- The installation-discovery loop of `GitHubTokens::get`
(`src/token/github.rs` lines 112–128): for each kind in
`["orgs", "users"]`, query `/{kind}/{namespace}/installation`; a
success OVERWRITES `found_installation` and the loop continues with the
next kind; a 404 `GitHubError` continues with the next kind; any other
error returns immediately. -/
def installationLoop (http : Str → Str → Except GitHubTokenError Nat) (ns : Str) :
    List Str → Option Nat → Except GitHubTokenError (Option Nat) × List GhCall
  | [], found => (.ok found, [])
  | kind :: rest, found =>
    match http kind ns with
    | .ok id =>
      match installationLoop http ns rest (some id) with
      | (res, tr) => (res, .installation kind ns :: tr)
    | .error e =>
      if e.isNotFound then
        match installationLoop http ns rest found with
        | (res, tr) => (res, .installation kind ns :: tr)
      else (.error e, [.installation kind ns])

/-- `GitHubTokens::get` from `src/token/github.rs`, instrumented with
the trace of outbound GitHub calls. -/
def GitHubTokens.get (state : Option GitHubState) (http : GhHttp)
    (request : GitHubTokenRequest) : Except GitHubTokenError Token × List GhCall :=
  match state with
  | none => (.error .noCredentials, [])
  | some _ =>
    -- Sign the GitHub App JWT: local computation, no outbound call.
    match partitionRepos request.repositories none [] with
    | .error e => (.error e, [])
    | .ok (found_namespace, repos_without_namespace) =>
      match found_namespace with
      | none => (.error .noRepositories, [])
      | some ns =>
        match buildPermissions request.permissions [] with
        | .error e => (.error e, [])
        | .ok permissions =>
          match installationLoop http.installation ns [kindOrgs, kindUsers] none with
          | (.error e, tr) => (.error e, tr)
          | (.ok found_installation, tr) =>
            match found_installation with
            | none => (.error (.appNotInstalled ns), tr)
            | some installation =>
              match http.accessTokens installation repos_without_namespace permissions with
              | .ok tok => (.ok ⟨tok⟩, tr ++ [.accessTokens installation])
              | .error e => (.error e, tr ++ [.accessTokens installation])

/-- A repository string in the `owner/name` shape the minter accepts:
one `/`, with no further `/` in either part. -/
def WellFormedRepo (repo : Str) : Prop :=
  ∃ o n, repo = o ++ '/' :: n ∧ '/' ∉ o ∧ '/' ∉ n

/-- The owner (namespace) part of an `owner/name` repository string. -/
def repoOwner (repo : Str) : Str :=
  ((splitOnce repo '/').map Prod.fst).getD repo

/-- A concrete GitHub minter state. -/
def ghState0 : GitHubState := ⟨"client-1".toList⟩

/-- A concrete HTTP oracle: the app is installed both as an org
installation (id 1) and as a user installation (id 2); token minting
succeeds. -/
def ghHttp0 : GhHttp where
  installation := fun kind _ => if kind = "orgs".toList then .ok 1 else .ok 2
  accessTokens := fun _ _ _ => .ok "tok".toList
  repoVisibility := fun _ _ => .ok "public".toList

/-! ## src/token/oxide.rs

The Oxide minter.  The per-silo SDK clients are modelled as the list of
configured silo names plus an oracle supplying the outcome of each of
the three device-authorization calls; outbound calls are traced. -/

/-- `OxideTokenRequest` from `src/token/oxide.rs` (`duration: u32`). -/
structure OxideTokenRequest where
  silo : Str
  duration : Nat
deriving DecidableEq, Repr

/-- `DeviceAuthorizationResponse` from `src/oauth.rs`. -/
structure DeviceAuthorizationResponse where
  device_code : Str
  user_code : Str
deriving DecidableEq, Repr

/-- `DeviceAccessTokenGrant` from `src/oauth.rs`. -/
structure DeviceAccessTokenGrant where
  access_token : Str
deriving DecidableEq, Repr

/-- `DeviceAccessTokenError` from `src/oauth.rs`. -/
structure DeviceAccessTokenError where
  error : Str
  error_description : Str
deriving DecidableEq, Repr

/-- `ByteStreamError` from `src/util.rs`. -/
inductive ByteStreamError where
  | failedToRead
  | failedToParse
deriving DecidableEq, Repr

/-- `OxideError` from `src/token/oxide.rs`.  Payloads wrapping foreign
error types are elided. -/
inductive OxideError where
  | byteStream (e : ByteStreamError)
  | deviceAuthRequest (e : DeviceAccessTokenError)
  | parseToken (path : Str)
  | readToken (path : Str)
  | siloNotConfigured (silo : Str)
  | authFailed (silo : Str)
  | oxide
  | oxideByteError
  | notConfigured
  | noExpirationDisallowed
  | tooLongExpiration (max : Nat)
deriving DecidableEq, Repr

/-- The minter's configured state (`State` in `src/token/oxide.rs`);
`clients` keeps the configured silo names, the clients' behaviour lives
in the oracle. -/
structure OxideState where
  clients : List Str
  allow_tokens_without_expiry : Bool
  max_duration : Nat
deriving DecidableEq, Repr

/-- One outbound Oxide API call, keyed by the silo it goes to. -/
inductive OxCall where
  | deviceAuthRequest (silo : Str)
  | deviceAuthConfirm (silo : Str)
  | deviceAccessToken (silo : Str)
deriving DecidableEq, Repr

/-- Outcome of the `device_auth_request` call, mirroring the source's
handling: a successful response body still has to be parsed
(`parse_bytestream`); an `ErrorResponse` body is parsed as
`DeviceAccessTokenError`; any other SDK error maps to the
`OxideByteError` variant. -/
inductive DeviceAuthReqOutcome where
  | ok (parsed : Except ByteStreamError DeviceAuthorizationResponse)
  | errorResponse (parsed : Except ByteStreamError DeviceAccessTokenError)
  | otherError
deriving DecidableEq, Repr

/-- Outcome of the `device_access_token` call: a successful body still
has to be parsed; errors map to `OxideByteError`. -/
inductive DeviceTokenOutcome where
  | ok (parsed : Except ByteStreamError DeviceAccessTokenGrant)
  | otherError
deriving DecidableEq, Repr

/-- Oracle for the Oxide device-authorization endpoints of one request:
outcomes keyed by silo (and, for confirm / token fetch, by the codes
submitted). -/
structure OxideHttp where
  deviceAuthRequest : Str → Option Nat → DeviceAuthReqOutcome
  deviceAuthConfirm : Str → Str → Except Unit Unit
  deviceAccessToken : Str → Str → DeviceTokenOutcome

/-- `OxideTokens::get` from `src/token/oxide.rs`, instrumented with the
trace of outbound Oxide calls.  Validation order follows the source:
missing state, `duration <= 0` without `allow_tokens_without_expiry`,
`duration > max_duration`, unknown silo — all before the first outbound
call. -/
def OxideTokens.get (state : Option OxideState) (http : OxideHttp)
    (request : OxideTokenRequest) : Except OxideError Token × List OxCall :=
  match state with
  | none => (.error .notConfigured, [])
  | some state =>
    if request.duration ≤ 0 ∧ ¬ state.allow_tokens_without_expiry then
      (.error .noExpirationDisallowed, [])
    else if request.duration > state.max_duration then
      (.error (.tooLongExpiration state.max_duration), [])
    else if ¬ state.clients.contains request.silo then
      (.error (.siloNotConfigured request.silo), [])
    else
      let ttl := if request.duration = 0 then none else some request.duration
      match http.deviceAuthRequest request.silo ttl with
      | .ok (.error e) => (.error (.byteStream e), [.deviceAuthRequest request.silo])
      | .errorResponse (.ok e) =>
        (.error (.deviceAuthRequest e), [.deviceAuthRequest request.silo])
      | .errorResponse (.error e) =>
        (.error (.byteStream e), [.deviceAuthRequest request.silo])
      | .otherError => (.error .oxideByteError, [.deviceAuthRequest request.silo])
      | .ok (.ok device_response) =>
        match http.deviceAuthConfirm request.silo device_response.user_code with
        | .error _ =>
          (.error .oxideByteError,
           [.deviceAuthRequest request.silo, .deviceAuthConfirm request.silo])
        | .ok _ =>
          match http.deviceAccessToken request.silo device_response.device_code with
          | .ok (.ok grant) =>
            (.ok ⟨grant.access_token⟩,
             [.deviceAuthRequest request.silo, .deviceAuthConfirm request.silo,
              .deviceAccessToken request.silo])
          | .ok (.error e) =>
            (.error (.byteStream e),
             [.deviceAuthRequest request.silo, .deviceAuthConfirm request.silo,
              .deviceAccessToken request.silo])
          | .otherError =>
            (.error .oxideByteError,
             [.deviceAuthRequest request.silo, .deviceAuthConfirm request.silo,
              .deviceAccessToken request.silo])

/-! ## src/policy.rs

The policy engine.  The embedded `oso` evaluator is out of scope for
the core (the spec treats it as an opaque `decide`), so it is modelled
as an oracle `Claims → PolicyFact → OsoOutcome`, where the outcomes mirror
`query_rule(..).next()`: `Some(Ok(_))` is `allow`, `None` is `deny`,
`Some(Err(_))` is `engineError`.  The visibility cache is a mutex-held
map, modelled by explicit state passing; `Utc::now()` is a `now`
parameter held fixed during one evaluation. -/

/-- `OxideClass` from `src/policy.rs` (`duration: i64`, cast from the
request's `u32`). -/
structure OxideClass where
  silo : Str
  duration : Int
deriving DecidableEq, Repr

/-- `GitHubClass` from `src/policy.rs`. -/
structure GitHubClass where
  repository : Str
  repository_visibility : Str
  permission : Str
deriving DecidableEq, Repr

/-- The atomic policy facts handed to the evaluator, one per
`ensure_permutation` call. -/
inductive PolicyFact where
  | oxide (c : OxideClass)
  | github (c : GitHubClass)
deriving DecidableEq, Repr

/-- The `Display` rendering of a fact (the `string_repr` captured by
`ensure_permutation`): `"silo {silo}"` for Oxide and
`"permission {permission} on repository {repository}"` for GitHub. -/
def PolicyFact.display : PolicyFact → Str
  | .oxide c => "silo ".toList ++ c.silo
  | .github c =>
    "permission ".toList ++ c.permission ++ " on repository ".toList ++ c.repository

/-- Outcome of one `oso.query_rule("allow_request", ...)` evaluation. -/
inductive OsoOutcome where
  | allow
  | deny
  | engineError
deriving DecidableEq, Repr

/-- The `oso` evaluator as an oracle. -/
abbrev Oso := Claims → PolicyFact → OsoOutcome

/-- `PolicyError` from `src/policy.rs`. -/
inductive PolicyError where
  | oso
  | notMatching (s : Str)
  | getVisibility (repo : Str) (e : GitHubTokenError)
deriving DecidableEq, Repr

/-- `Policy::ensure_permutation`: evaluate one fact; `Some(Ok(_))` is
success, `None` is `NotMatching(string_repr)`, `Some(Err(e))` is an
engine error. -/
def Policy.ensure_permutation (oso : Oso) (claims : Claims) (fact : PolicyFact) :
    Except PolicyError Unit :=
  match oso claims fact with
  | .allow => .ok ()
  | .engineError => .error .oso
  | .deny => .error (.notMatching fact.display)

/-- `CachedVisibility` from `src/policy.rs`; `expires_at` is a Unix
timestamp in seconds. -/
structure CachedVisibility where
  visibility : Str
  expires_at : Int
deriving DecidableEq, Repr

/-- The `github_visibility_cache` map. -/
abbrev VisCache := List (Str × CachedVisibility)

/-- `HashMap::insert`: replace the entry for `k`, keeping other keys. -/
def insertVis (k : Str) (v : CachedVisibility) : VisCache → VisCache
  | [] => [(k, v)]
  | (k2, v2) :: rest => if k2 = k then (k, v) :: rest else (k2, v2) :: insertVis k v rest

/-- The cache-miss path of `Policy::github_visibility`: call
`repository_visibility` upstream (one outbound call); on success insert
`(visibility, now + 1h)` and return it, on failure return
`GetVisibility` without touching the cache. -/
def Policy.fetch_visibility (cache : VisCache) (upstream : Str → Except GitHubTokenError Str)
    (now : Int) (repo : Str) : Except PolicyError Str × VisCache × Nat :=
  match upstream repo with
  | .error e => (.error (.getVisibility repo e), cache, 1)
  | .ok visibility =>
    (.ok visibility, insertVis repo ⟨visibility, now + 3600⟩ cache, 1)

/-- `Policy::github_visibility` from `src/policy.rs`, instrumented with
the number of upstream `repository_visibility` calls issued: a cached
entry with `expires_at ≥ now` is returned directly (no upstream call),
anything else goes through the fetch path. -/
def Policy.github_visibility (cache : VisCache) (upstream : Str → Except GitHubTokenError Str)
    (now : Int) (repo : Str) : Except PolicyError Str × VisCache × Nat :=
  match cache.lookup repo with
  | some cached =>
    if cached.expires_at ≥ now then (.ok cached.visibility, cache, 0)
    else Policy.fetch_visibility cache upstream now repo
  | none => Policy.fetch_visibility cache upstream now repo

/-- `TokenRequest` (declared in the newer `endpoints.rs`, matched on by
`Policy::ensure_allowed`). -/
inductive TokenRequest where
  | oxide (r : OxideTokenRequest)
  | github (r : GitHubTokenRequest)
deriving DecidableEq, Repr

/-- The inner permission loop of `Policy::ensure_allowed`: one
`ensure_permutation` per permission for a fixed repository and
visibility, short-circuiting on the first error; also returns the list
of facts evaluated. -/
def Policy.permLoop (oso : Oso) (claims : Claims) (repo vis : Str) :
    List Str → Except PolicyError Unit × List PolicyFact
  | [] => (.ok (), [])
  | perm :: rest =>
    let fact : PolicyFact := .github ⟨repo, vis, perm⟩
    match Policy.ensure_permutation oso claims fact with
    | .ok _ =>
      match Policy.permLoop oso claims repo vis rest with
      | (res, tr) => (res, fact :: tr)
    | .error e => (.error e, [fact])

/-- The outer repository loop of `Policy::ensure_allowed`: for each
repository, resolve its visibility (through the cache), then run the
permission loop; short-circuit on the first error. -/
def Policy.repoLoop (oso : Oso) (upstream : Str → Except GitHubTokenError Str) (now : Int)
    (claims : Claims) (permissions : List Str) :
    List Str → VisCache → Except PolicyError Unit × VisCache × List PolicyFact
  | [], cache => (.ok (), cache, [])
  | repo :: rest, cache =>
    match Policy.github_visibility cache upstream now repo with
    | (.error e, cache2, _) => (.error e, cache2, [])
    | (.ok vis, cache2, _) =>
      match Policy.permLoop oso claims repo vis permissions with
      | (.ok _, tr1) =>
        match Policy.repoLoop oso upstream now claims permissions rest cache2 with
        | (res, cache3, tr2) => (res, cache3, tr1 ++ tr2)
      | (.error e, tr1) => (.error e, cache2, tr1)

/-- `Policy::ensure_allowed` from `src/policy.rs`: one `{silo, duration}`
fact for an Oxide request; the `repositories × permissions` product of
`{repository, repository_visibility, permission}` facts for a GitHub
request. -/
def Policy.ensure_allowed (oso : Oso) (upstream : Str → Except GitHubTokenError Str)
    (cache : VisCache) (now : Int) (claims : Claims) :
    TokenRequest → Except PolicyError Unit × VisCache × List PolicyFact
  | .oxide r =>
    let fact : PolicyFact := .oxide ⟨r.silo, (r.duration : Int)⟩
    (Policy.ensure_permutation oso claims fact, cache, [fact])
  | .github r => Policy.repoLoop oso upstream now claims r.permissions r.repositories cache

/-- The atomic facts a request generates, in evaluation order, given
the visibility each repository resolves to. -/
def factsOf (vis : Str → Str) : TokenRequest → List PolicyFact
  | .oxide r => [.oxide ⟨r.silo, (r.duration : Int)⟩]
  | .github r =>
    r.repositories.flatMap
      (fun repo => r.permissions.map (fun perm => .github ⟨repo, vis repo, perm⟩))

/-- Sequential evaluation of a fact list: stop at the first fact that
does not produce `allow`, also returning the facts evaluated. -/
def runFacts (oso : Oso) (claims : Claims) : List PolicyFact → Except PolicyError Unit × List PolicyFact
  | [] => (.ok (), [])
  | f :: rest =>
    match Policy.ensure_permutation oso claims f with
    | .ok _ =>
      match runFacts oso claims rest with
      | (res, tr) => (res, f :: tr)
    | .error e => (.error e, [f])

/-- A cache is consistent with a visibility assignment when every entry
stores the assigned visibility of its key. -/
def CacheConsistent (vis : Str → Str) (cache : VisCache) : Prop :=
  ∀ k e, cache.lookup k = some e → e.visibility = vis k

/-- A concrete oso oracle for the C5 witness: allow exactly the
`contents:read` permission on public repositories and the
`silo.test` silo. -/
def oso0 : Oso := fun _ fact =>
  match fact with
  | .github c =>
    if c.permission = "contents:read".toList ∧ c.repository_visibility = "public".toList
    then .allow else .deny
  | .oxide c => if c.silo = "silo.test".toList then .allow else .deny

/-! ## src/endpoints.rs

The `exchange` handler as present in `src/endpoints.rs`: it iterates
over every configured provider and every token authorization, attempts
`validate` for each, and mints through the matching SDK client on the
first validation success; when nothing matches it responds
400 `NO_MATCH` / "Token is not authorized for any resources".  The
handler never decodes the token's `iss` and never consults it for
lookup.  The device-authorization flow is modelled through an SDK
oracle; each of its failure modes (send error, body parse error)
collapses to the same 500 "Failed to issue token" response, as in the
source.  The trace records the issuer of the provider for every
`validate` attempt. -/

/-- A `TokenAuthorization` as read by the handler: a host and user
naming the SDK client, the claim constraints (`authz.token`) and the
token duration. -/
structure TokenAuthorizationE where
  host : Str
  user : Str
  token : Claims
  duration : Nat

/-- A configured provider: its resolved OIDC config and the token
authorizations indexed under it. -/
structure ProviderE where
  config : ResolvedOidcConfig
  token_authorizations : List TokenAuthorizationE

/-- `dropshot::HttpError`, restricted to the two constructors the
handler uses. -/
inductive HttpError where
  | forBadRequest (code msg : Str)
  | forInternalError (msg : Str)
deriving DecidableEq, Repr

/-- The handler's `OxideToken` response body. -/
structure OxideToken where
  access_token : Str
  expires_at : Nat
deriving DecidableEq, Repr

/-- An authenticated Oxide SDK client, as an oracle over the three
device-authorization calls (each outcome already includes response-body
parsing). -/
structure SdkClient where
  deviceAuthRequest : Option Nat → Except Unit DeviceAuthorizationResponse
  deviceAuthConfirm : Str → Except Unit Unit
  deviceAccessToken : Str → Except Unit DeviceAccessTokenGrant

/-- The device-authorization sequence of the handler (request, confirm,
token fetch); every failure is a 500 "Failed to issue token". -/
def runOxideFlow (sdk : SdkClient) (duration : Nat) (expires_at : Nat) :
    Except HttpError OxideToken :=
  match sdk.deviceAuthRequest (if duration = 0 then none else some duration) with
  | .error _ => .error (.forInternalError "Failed to issue token".toList)
  | .ok device_response =>
    match sdk.deviceAuthConfirm device_response.user_code with
    | .error _ => .error (.forInternalError "Failed to issue token".toList)
    | .ok _ =>
      match sdk.deviceAccessToken device_response.device_code with
      | .error _ => .error (.forInternalError "Failed to issue token".toList)
      | .ok grant => .ok ⟨grant.access_token, expires_at⟩

/-- Outcome of scanning one provider's authorization list: either the
handler returned (success or minting error), or it fell through to the
next provider. -/
inductive AuthzOutcome where
  | returned (r : Except HttpError OxideToken)
  | fellThrough

/-- The inner loop of `exchange` over one provider's authorizations:
`validate` against each; on success with a matching SDK client, run the
device flow and return; otherwise continue.  Also returns the issuer of
each `validate` attempt. -/
def authzLoop (cfg : ResolvedOidcConfig) (sdk_store : Str × Str → Option SdkClient)
    (token : Jwt) (now : Int) : List TokenAuthorizationE → AuthzOutcome × List Str
  | [] => (.fellThrough, [])
  | authz :: rest =>
    match cfg.validate token authz.token now with
    | .ok _ =>
      let expires_at := now.toNat + authz.duration
      match sdk_store (authz.host, authz.user) with
      | some sdk => (.returned (runOxideFlow sdk authz.duration expires_at), [cfg.issuer])
      | none =>
        match authzLoop cfg sdk_store token now rest with
        | (o, tr) => (o, cfg.issuer :: tr)
    | .error _ =>
      match authzLoop cfg sdk_store token now rest with
      | (o, tr) => (o, cfg.issuer :: tr)

/-- The `exchange` handler from `src/endpoints.rs`: iterate over ALL
configured providers (not a lookup by the token's `iss`), and respond
400 `NO_MATCH` "Token is not authorized for any resources" when no
authorization matches. -/
def exchange (sdk_store : Str × Str → Option SdkClient) (token : Jwt) (now : Int) :
    List ProviderE → Except HttpError OxideToken × List Str
  | [] =>
    (.error (.forBadRequest "NO_MATCH".toList
        "Token is not authorized for any resources".toList), [])
  | p :: rest =>
    match authzLoop p.config sdk_store token now p.token_authorizations with
    | (.returned r, tr) => (r, tr)
    | (.fellThrough, tr) =>
      match exchange sdk_store token now rest with
      | (res, tr2) => (res, tr ++ tr2)

/-- Provider bound to issuer `A`, with one authorization. -/
def provA : ProviderE :=
  ⟨⟨"A".toList, ⟨[]⟩, [], [], [], [], []⟩,
   [⟨"h".toList, "u".toList, .GitHub GithubOidcClaims.none_, 300⟩]⟩

/-- Provider bound to issuer `B`, with one authorization. -/
def provB : ProviderE :=
  ⟨⟨"B".toList, ⟨[]⟩, [], [], [], [], []⟩,
   [⟨"h".toList, "u".toList, .GitHub GithubOidcClaims.none_, 300⟩]⟩

/-- A token whose `iss` payload claim is `B` (and whose header carries
no `kid`, so no verifier accepts it). -/
def tokenB : Jwt :=
  ⟨⟨.RS256, none⟩, some 1000, none,
   { GithubOidcClaims.none_ with iss := some "B".toList }, "key".toList⟩

/-! ## Theorems -/

theorem check_claim_eq_true_iff (a b : Option Str) :
    check_claim a b = true ↔ (a = none ∨ ∃ v, a = some v ∧ b = some v) := by
  cases a with
  | none => simp [check_claim]
  | some r =>
    cases b with
    | none => simp [check_claim, Option.or]
    | some s =>
      show (r == s) = true ↔ _
      constructor
      · intro h
        exact Or.inr ⟨r, rfl, by rw [eq_of_beq h]⟩
      · rintro (h | ⟨v, hv, hb⟩)
        · exact absurd h (by simp)
        · cases hv
          cases hb
          exact beq_self_eq_true r

/-- C2: for every constraint claim set and every presented claim set, the
claim matcher returns true if and only if for every field the constraint
field is absent, or both fields are present with equal values; a present
constraint field paired with an absent presented field fails, and the
overall result is the conjunction over all fields. -/
theorem claim_matcher_fieldwise (c p : GithubOidcClaims) :
    Claims.validate (.GitHub c) (.GitHub p) = true ↔
      ∀ f ∈ claimFields, f c = none ∨ ∃ v, f c = some v ∧ f p = some v := by
  have h : Claims.validate (.GitHub c) (.GitHub p)
      = claimFields.all (fun f => check_claim (f c) (f p)) := by
    simp [Claims.validate, GithubOidcClaims.validate, claimFields,
      List.all_cons, List.all_nil, Bool.and_assoc]
  rw [h, List.all_eq_true]
  exact forall_congr' fun f => forall_congr' fun _ => check_claim_eq_true_iff (f c) (f p)

/-- Witness for C2 at a concrete pair of claim sets. -/
theorem claim_matcher_fieldwise_witness :
    Claims.validate (.GitHub GithubOidcClaims.none_) (.GitHub GithubOidcClaims.none_) = true :=
  (claim_matcher_fieldwise GithubOidcClaims.none_ GithubOidcClaims.none_).mpr (by
    intro f _
    exact Or.inl (by revert f; decide))

/-- C1 (failing evaluation): the validator that
`ResolvedOidcConfig::validate` builds for a concrete RSA key carries no
accepted audience at all — `aud` is `none`, not the configured required
audience (e.g. `aud-123`).  `validate` has no audience input: the
required audience never reaches the validator. -/
theorem validator_audience_is_none :
    oidcConfig0.buildValidation jwk0 =
      .ok { required_spec_claims := ["exp".toList]
            leeway := 60
            validate_exp := true
            validate_nbf := false
            validate_aud := true
            aud := none
            iss := some ["https://example.test/oidc".toList]
            sub := none
            algorithms := [.RS256] } ∧
    (none : Option (List Str)) ≠ some ["aud-123".toList] := by
  exact ⟨by rfl, by decide⟩

/-- C6: for every token whose header declares `alg = HS256` but whose
`kid` resolves to an RSA JWK in the stored JWKS, the validator is built
with the algorithm taken from the JWK (not the header) and the token is
rejected with an `InvalidAlgorithm` decode error. -/
theorem algorithm_confusion_rejected (cfg : ResolvedOidcConfig) (token : Jwt)
    (constraint : Claims) (now : Int) (k : Str) (jwk : Jwk) (ka : KeyAlgorithm) (a : Algorithm)
    (halg : token.header.alg = .HS256)
    (hkid : token.header.kid = some k)
    (hfind : cfg.jwks.find k = some jwk)
    (hfam : jwk.family = .Rsa)
    (hka : jwk.key_algorithm = some ka)
    (hk2a : key_algo_to_algo ka = .ok a)
    (hrsa : a.family = .Rsa) :
    cfg.buildValidation jwk = .ok ((Validation.new a).set_issuer [cfg.issuer]) ∧
    ((Validation.new a).set_issuer [cfg.issuer]).algorithms = [a] ∧
    cfg.validate token constraint now = .error (.invalidToken .invalidAlgorithm) := by
  have hne : a ≠ Algorithm.HS256 := by
    intro h
    rw [h] at hrsa
    exact absurd hrsa (by decide)
  have hne2 : ¬ (Algorithm.HS256 = a) := fun h => hne h.symm
  refine ⟨?_, rfl, ?_⟩
  · simp [ResolvedOidcConfig.buildValidation, hka, hk2a]
  · simp only [ResolvedOidcConfig.validate, hkid, hfind,
      ResolvedOidcConfig.buildValidation, hka, hk2a]
    simp [jwtDecode, DecodingKey.from_jwk, Validation.new, Validation.set_issuer,
      halg, hfam, hrsa, hne2]

/-- Witness for C6 at a concrete configuration and token. -/
theorem algorithm_confusion_rejected_witness :
    (oidcConfig0.validate
        ⟨⟨.HS256, some "k1".toList⟩, some 1000, none, GithubOidcClaims.none_, "rsa-key-1".toList⟩
        (.GitHub GithubOidcClaims.none_) 0)
      = .error (.invalidToken .invalidAlgorithm) :=
  (algorithm_confusion_rejected oidcConfig0
      ⟨⟨.HS256, some "k1".toList⟩, some 1000, none, GithubOidcClaims.none_, "rsa-key-1".toList⟩
      (.GitHub GithubOidcClaims.none_) 0 ("k1".toList) jwk0 .RS256 .RS256
      rfl rfl (by decide) rfl rfl rfl rfl).2.2

theorem splitOnce_append (o n : Str) (h : '/' ∉ o) :
    splitOnce (o ++ '/' :: n) '/' = some (o, n) := by
  induction o with
  | nil => simp [splitOnce]
  | cons c o ih =>
    have hc : c ≠ '/' := fun hc => h (by simp [hc])
    have ho : '/' ∉ o := fun ho => h (List.mem_cons_of_mem c ho)
    simp [splitOnce, hc, ih ho]

theorem repoOwner_eq (o n : Str) (h : '/' ∉ o) :
    repoOwner (o ++ '/' :: n) = o := by
  simp [repoOwner, splitOnce_append o n h]

/-- If the partition loop already has a namespace `w` and some later
repository is well formed with an owner other than `w`, the loop
returns `DifferentOrgs`. -/
theorem partitionRepos_differentOrgs :
    ∀ (repos : List Str) (w : Str) (acc : List Str),
      (∀ r ∈ repos, WellFormedRepo r) →
      (∃ r ∈ repos, repoOwner r ≠ w) →
      partitionRepos repos (some w) acc = .error .differentOrgs := by
  intro repos
  induction repos with
  | nil =>
    intro w acc _ hdiff
    rcases hdiff with ⟨r, hr, _⟩
    cases hr
  | cons r rest ih =>
    intro w acc hwf hdiff
    obtain ⟨o, n, rfl, ho, hn⟩ := hwf r (List.mem_cons_self r rest)
    have hsplit := splitOnce_append o n ho
    by_cases hw : o = w
    · subst hw
      rcases hdiff with ⟨r2, hr2, hne⟩
      rcases List.mem_cons.mp hr2 with heq | hr2
      · rw [heq] at hne
        exact absurd (repoOwner_eq o n ho) hne
      · have hrest : ∃ r ∈ rest, repoOwner r ≠ o := ⟨r2, hr2, hne⟩
        simp only [partitionRepos, hsplit]
        rw [if_neg (by simp [hn]), if_neg (by simp)]
        exact ih o (acc ++ [n]) (fun r hr => hwf r (List.mem_cons_of_mem _ hr)) hrest
    · simp only [partitionRepos, hsplit]
      rw [if_neg (by simp [hn]),
        if_pos ⟨rfl, by simp only [ne_eq, Option.some.injEq]; exact fun h => hw h.symm⟩]

/-- C8: for every GitHub token request whose repository list contains
two (well-formed `owner/name`) repositories with different owners, the
minter returns `DifferentOrgs` without issuing any outbound HTTP call
(the trace of outbound calls is empty). -/
theorem different_orgs_before_outbound (state : GitHubState) (http : GhHttp)
    (request : GitHubTokenRequest)
    (hwf : ∀ r ∈ request.repositories, WellFormedRepo r)
    (hdiff : ∃ r1 ∈ request.repositories, ∃ r2 ∈ request.repositories,
      repoOwner r1 ≠ repoOwner r2) :
    GitHubTokens.get (some state) http request = (.error .differentOrgs, []) := by
  obtain ⟨r1, hr1, r2, hr2, hne⟩ := hdiff
  have hpart : partitionRepos request.repositories none [] = .error .differentOrgs := by
    rcases hrepos : request.repositories with _ | ⟨r0, rest⟩
    · rw [hrepos] at hr1
      cases hr1
    · rw [hrepos] at hwf hr1 hr2
      obtain ⟨o, n, heq0, ho, hn⟩ := hwf r0 (List.mem_cons_self r0 rest)
      have hown0 : repoOwner r0 = o := by rw [heq0]; exact repoOwner_eq o n ho
      have hrest : ∃ r ∈ rest, repoOwner r ≠ o := by
        by_contra hall
        push_neg at hall
        have h1 : repoOwner r1 = o := by
          rcases List.mem_cons.mp hr1 with rfl | h
          · exact hown0
          · exact hall r1 h
        have h2 : repoOwner r2 = o := by
          rcases List.mem_cons.mp hr2 with rfl | h
          · exact hown0
          · exact hall r2 h
        exact hne (h1.trans h2.symm)
      rw [heq0]
      simp only [partitionRepos, splitOnce_append o n ho]
      rw [if_neg (by simp [hn]), if_neg (by simp)]
      exact partitionRepos_differentOrgs rest o [n]
        (fun r hr => hwf r (List.mem_cons_of_mem _ hr)) hrest
  simp [GitHubTokens.get, hpart]

/-- Witness for C8 at a concrete request spanning owners `a` and `b`. -/
theorem different_orgs_before_outbound_witness :
    GitHubTokens.get (some ⟨"client-1".toList⟩)
        ⟨fun _ _ => .error .http, fun _ _ _ => .error .http, fun _ _ => .error .http⟩
        ⟨["a/x".toList, "b/y".toList], ["contents:read".toList]⟩ =
      (.error .differentOrgs, []) := by
  apply different_orgs_before_outbound
  · intro r hr
    rcases List.mem_cons.mp hr with rfl | hr
    · exact ⟨['a'], ['x'], by decide, by decide, by decide⟩
    rcases List.mem_cons.mp hr with rfl | hr
    · exact ⟨['b'], ['y'], by decide, by decide, by decide⟩
    · cases hr
  · exact ⟨"a/x".toList, by simp, "b/y".toList, by simp, by decide⟩

/-- C3 (failing evaluation): when both the `orgs` and the `users`
installation lookups succeed (ids 1 and 2), the minter queries BOTH
endpoints — it does not stop at the first success — and mints the token
against installation 2, the LAST success, not the first (id 1). -/
theorem installation_last_success_wins :
    GitHubTokens.get (some ghState0) ghHttp0
        ⟨["acme/app".toList], ["contents:read".toList]⟩ =
      (.ok ⟨"tok".toList⟩,
       [.installation kindOrgs "acme".toList,
        .installation kindUsers "acme".toList,
        .accessTokens 2]) := by
  decide

/-- C10: if the `orgs` installation lookup succeeds but the subsequent
`users` lookup fails with any non-404 error, `get` returns that error
(and never reaches the token-minting call) instead of minting with the
installation already found. -/
theorem users_error_discards_orgs_success (state : GitHubState) (http : GhHttp)
    (request : GitHubTokenRequest) (ns : Str) (names : List Str)
    (perms : List (Str × Str)) (id : Nat) (e : GitHubTokenError)
    (hpart : partitionRepos request.repositories none [] = .ok (some ns, names))
    (hperm : buildPermissions request.permissions [] = .ok perms)
    (horgs : http.installation kindOrgs ns = .ok id)
    (husers : http.installation kindUsers ns = .error e)
    (h404 : e.isNotFound = false) :
    GitHubTokens.get (some state) http request =
      (.error e, [.installation kindOrgs ns, .installation kindUsers ns]) := by
  simp [GitHubTokens.get, hpart, hperm, installationLoop, horgs, husers, h404]

/-- Witness for C10 at a concrete request and oracle. -/
theorem users_error_discards_orgs_success_witness :
    GitHubTokens.get (some ghState0)
        ⟨fun kind _ => if kind = kindOrgs then .ok 5 else .error .http,
         fun _ _ _ => .ok "tok".toList, fun _ _ => .ok "public".toList⟩
        ⟨["acme/app".toList], ["contents:read".toList]⟩ =
      (.error .http,
       [.installation kindOrgs "acme".toList,
        .installation kindUsers "acme".toList]) :=
  users_error_discards_orgs_success ghState0
    ⟨fun kind _ => if kind = kindOrgs then .ok 5 else .error .http,
     fun _ _ _ => .ok "tok".toList, fun _ _ => .ok "public".toList⟩
    ⟨["acme/app".toList], ["contents:read".toList]⟩
    "acme".toList ["app".toList] [("contents".toList, "read".toList)] 5 .http
    (by decide) (by decide) (by decide) (by decide) (by decide)

/-- C7: for every configured Oxide minter, `get` returns
`NoExpirationDisallowed` when `duration = 0` and
`allow_tokens_without_expiry` is not set; `TooLongExpiration(max_duration)`
when `duration > max_duration`; and `SiloNotConfigured(silo)` when the
silo is not in the configured client map and the duration checks pass —
and each of these errors is returned before any upstream call is made
(the outbound-call trace is empty). -/
theorem oxide_validation_before_upstream (state : OxideState) (http : OxideHttp)
    (request : OxideTokenRequest) :
    (request.duration = 0 → state.allow_tokens_without_expiry = false →
      OxideTokens.get (some state) http request = (.error .noExpirationDisallowed, [])) ∧
    (request.duration > state.max_duration →
      OxideTokens.get (some state) http request =
        (.error (.tooLongExpiration state.max_duration), [])) ∧
    (state.clients.contains request.silo = false →
      ¬ (request.duration = 0 ∧ state.allow_tokens_without_expiry = false) →
      request.duration ≤ state.max_duration →
      OxideTokens.get (some state) http request =
        (.error (.siloNotConfigured request.silo), [])) := by
  refine ⟨?_, ?_, ?_⟩
  · intro hdur hallow
    rw [OxideTokens.get, if_pos ⟨by omega, by simp [hallow]⟩]
  · intro hdur
    have h1 : ¬ (request.duration ≤ 0 ∧ ¬ state.allow_tokens_without_expiry = true) := by
      intro h
      omega
    rw [OxideTokens.get, if_neg h1, if_pos hdur]
  · intro hsilo hdur hmax
    have h1 : ¬ (request.duration ≤ 0 ∧ ¬ state.allow_tokens_without_expiry = true) := by
      intro h
      rcases h with ⟨h0, ha⟩
      exact hdur ⟨by omega, by simpa using ha⟩
    have h2 : ¬ request.duration > state.max_duration := by omega
    rw [OxideTokens.get, if_neg h1, if_neg h2, if_pos (by simpa using hsilo)]

/-- Witness for C7: the three validation errors at concrete requests,
each with an empty outbound trace. -/
theorem oxide_validation_before_upstream_witness :
    OxideTokens.get (some ⟨["silo.test".toList], false, 3600⟩)
        ⟨fun _ _ => .otherError, fun _ _ => .error (), fun _ _ => .otherError⟩
        ⟨"silo.test".toList, 0⟩ = (.error .noExpirationDisallowed, []) ∧
    OxideTokens.get (some ⟨["silo.test".toList], false, 3600⟩)
        ⟨fun _ _ => .otherError, fun _ _ => .error (), fun _ _ => .otherError⟩
        ⟨"silo.test".toList, 4000⟩ = (.error (.tooLongExpiration 3600), []) ∧
    OxideTokens.get (some ⟨["silo.test".toList], false, 3600⟩)
        ⟨fun _ _ => .otherError, fun _ _ => .error (), fun _ _ => .otherError⟩
        ⟨"other.test".toList, 300⟩ = (.error (.siloNotConfigured "other.test".toList), []) := by
  refine ⟨?_, ?_, ?_⟩
  · exact (oxide_validation_before_upstream ⟨["silo.test".toList], false, 3600⟩
      ⟨fun _ _ => .otherError, fun _ _ => .error (), fun _ _ => .otherError⟩
      ⟨"silo.test".toList, 0⟩).1 rfl rfl
  · exact (oxide_validation_before_upstream ⟨["silo.test".toList], false, 3600⟩
      ⟨fun _ _ => .otherError, fun _ _ => .error (), fun _ _ => .otherError⟩
      ⟨"silo.test".toList, 4000⟩).2.1 (by decide)
  · exact (oxide_validation_before_upstream ⟨["silo.test".toList], false, 3600⟩
      ⟨fun _ _ => .otherError, fun _ _ => .error (), fun _ _ => .otherError⟩
      ⟨"other.test".toList, 300⟩).2.2 (by decide) (by decide) (by decide)

theorem lookup_insertVis_self (k : Str) (v : CachedVisibility) :
    ∀ cache : VisCache, (insertVis k v cache).lookup k = some v := by
  intro cache
  induction cache with
  | nil => simp [insertVis, List.lookup]
  | cons hd rest ih =>
    obtain ⟨k2, v2⟩ := hd
    by_cases h : k2 = k
    · simp [insertVis, h, List.lookup]
    · have hbeq : (k == k2) = false := by
        simp only [beq_eq_false_iff_ne, ne_eq]
        exact fun hk => h hk.symm
      simp [insertVis, h, List.lookup, hbeq, ih]

theorem lookup_insertVis_ne (k : Str) (v : CachedVisibility) (k2 : Str) (h : k2 ≠ k) :
    ∀ cache : VisCache, (insertVis k v cache).lookup k2 = cache.lookup k2 := by
  intro cache
  have hbeq : (k2 == k) = false := by
    simp only [beq_eq_false_iff_ne, ne_eq]
    exact h
  induction cache with
  | nil => simp [insertVis, List.lookup, hbeq]
  | cons hd rest ih =>
    obtain ⟨k3, v3⟩ := hd
    by_cases hk : k3 = k
    · subst hk
      simp [insertVis, List.lookup, hbeq]
    · simp [insertVis, hk, List.lookup, ih]

theorem cacheConsistent_insert (vis : Str → Str) (cache : VisCache) (repo : Str)
    (e : CachedVisibility) (hc : CacheConsistent vis cache) (he : e.visibility = vis repo) :
    CacheConsistent vis (insertVis repo e cache) := by
  intro k entry hlk
  by_cases hk : k = repo
  · subst hk
    rw [lookup_insertVis_self] at hlk
    cases hlk
    exact he
  · rw [lookup_insertVis_ne repo e k hk] at hlk
    exact hc k entry hlk

theorem github_visibility_consistent (vis : Str → Str)
    (upstream : Str → Except GitHubTokenError Str) (now : Int) (repo : Str) (cache : VisCache)
    (hc : CacheConsistent vis cache) (hup : upstream repo = .ok (vis repo)) :
    ∃ cache2 n, Policy.github_visibility cache upstream now repo = (.ok (vis repo), cache2, n) ∧
      CacheConsistent vis cache2 := by
  cases hlk : cache.lookup repo with
  | none =>
    refine ⟨insertVis repo ⟨vis repo, now + 3600⟩ cache, 1, ?_, ?_⟩
    · simp [Policy.github_visibility, hlk, Policy.fetch_visibility, hup]
    · exact cacheConsistent_insert vis cache repo _ hc rfl
  | some cached =>
    by_cases hfresh : cached.expires_at ≥ now
    · refine ⟨cache, 0, ?_, hc⟩
      simp [Policy.github_visibility, hlk, hfresh, hc repo cached hlk]
    · refine ⟨insertVis repo ⟨vis repo, now + 3600⟩ cache, 1, ?_, ?_⟩
      · simp [Policy.github_visibility, hlk, hfresh, Policy.fetch_visibility, hup]
      · exact cacheConsistent_insert vis cache repo _ hc rfl

theorem runFacts_ok_iff (oso : Oso) (claims : Claims) :
    ∀ facts : List PolicyFact,
      (runFacts oso claims facts).1 = .ok () ↔ ∀ f ∈ facts, oso claims f = .allow := by
  intro facts
  induction facts with
  | nil => simp [runFacts]
  | cons f rest ih =>
    cases hout : oso claims f with
    | allow =>
      simp only [runFacts, Policy.ensure_permutation, hout]
      rcases hrun : runFacts oso claims rest with ⟨res, tr⟩
      rw [hrun] at ih
      simpa [hout] using ih
    | deny =>
      simp [runFacts, Policy.ensure_permutation, hout]
    | engineError =>
      simp [runFacts, Policy.ensure_permutation, hout]

theorem runFacts_append (oso : Oso) (claims : Claims) :
    ∀ l1 l2 : List PolicyFact,
      runFacts oso claims (l1 ++ l2) =
        match runFacts oso claims l1 with
        | (.ok _, tr1) =>
          match runFacts oso claims l2 with
          | (res, tr2) => (res, tr1 ++ tr2)
        | (.error e, tr1) => (.error e, tr1) := by
  intro l1 l2
  induction l1 with
  | nil => simp [runFacts]
  | cons f rest ih =>
    cases hout : oso claims f with
    | allow =>
      rcases h1 : runFacts oso claims rest with ⟨res1, tr1⟩
      rcases h2 : runFacts oso claims l2 with ⟨res2, tr2⟩
      rw [h1, h2] at ih
      simp only [List.cons_append, runFacts, Policy.ensure_permutation, hout, ih, h1, h2]
      cases res1 with
      | ok u => simp [ih]
      | error e => simp [ih]
    | deny => simp [runFacts, Policy.ensure_permutation, hout]
    | engineError => simp [runFacts, Policy.ensure_permutation, hout]

theorem runFacts_first_deny (oso : Oso) (claims : Claims) :
    ∀ (pre : List PolicyFact) (f : PolicyFact) (post : List PolicyFact),
      (∀ g ∈ pre, oso claims g = .allow) → oso claims f = .deny →
      runFacts oso claims (pre ++ f :: post) =
        (.error (.notMatching f.display), pre ++ [f]) := by
  intro pre
  induction pre with
  | nil =>
    intro f post _ hf
    simp [runFacts, Policy.ensure_permutation, hf]
  | cons g rest ih =>
    intro f post hall hf
    have hg : oso claims g = .allow := hall g (List.mem_cons_self g rest)
    have ih2 := ih f post (fun x hx => hall x (List.mem_cons_of_mem g hx)) hf
    simp only [List.cons_append, runFacts, Policy.ensure_permutation, hg, ih2]
    simp [ih2]

theorem permLoop_eq_runFacts (oso : Oso) (claims : Claims) (repo v : Str) :
    ∀ perms : List Str,
      Policy.permLoop oso claims repo v perms =
        runFacts oso claims (perms.map (fun p => .github ⟨repo, v, p⟩)) := by
  intro perms
  induction perms with
  | nil => simp [Policy.permLoop, runFacts]
  | cons p rest ih =>
    simp only [Policy.permLoop, List.map_cons, runFacts, ih]

theorem repoLoop_eq_runFacts (oso : Oso) (claims : Claims)
    (upstream : Str → Except GitHubTokenError Str) (vis : Str → Str) (now : Int)
    (perms : List Str) (hup : ∀ repo, upstream repo = .ok (vis repo)) :
    ∀ (repos : List Str) (cache : VisCache), CacheConsistent vis cache →
      ∃ cache2,
        Policy.repoLoop oso upstream now claims perms repos cache =
          ((runFacts oso claims
              (repos.flatMap (fun repo => perms.map (fun p => .github ⟨repo, vis repo, p⟩)))).1,
           cache2,
           (runFacts oso claims
              (repos.flatMap (fun repo => perms.map (fun p => .github ⟨repo, vis repo, p⟩)))).2) := by
  intro repos
  induction repos with
  | nil =>
    intro cache hc
    exact ⟨cache, by simp [Policy.repoLoop, runFacts]⟩
  | cons repo rest ih =>
    intro cache hc
    obtain ⟨cacheA, n, hviseq, hcA⟩ :=
      github_visibility_consistent vis upstream now repo cache hc (hup repo)
    rcases hhead : runFacts oso claims (perms.map (fun p => .github ⟨repo, vis repo, p⟩))
      with ⟨res1, tr1⟩
    cases res1 with
    | ok u =>
      obtain ⟨cache2, hrest⟩ := ih cacheA hcA
      rcases h2 : runFacts oso claims
          (rest.flatMap (fun repo => perms.map (fun p => .github ⟨repo, vis repo, p⟩)))
        with ⟨res2, tr2⟩
      rw [h2] at hrest
      refine ⟨cache2, ?_⟩
      simp only [Policy.repoLoop, hviseq, permLoop_eq_runFacts, hhead, hrest,
        List.flatMap_cons, runFacts_append, h2]
    | error e =>
      refine ⟨cacheA, ?_⟩
      simp only [Policy.repoLoop, hviseq, permLoop_eq_runFacts, hhead,
        List.flatMap_cons, runFacts_append, hhead]

theorem ensure_allowed_eq_runFacts (oso : Oso)
    (upstream : Str → Except GitHubTokenError Str) (vis : Str → Str) (now : Int)
    (claims : Claims) (request : TokenRequest)
    (hup : ∀ repo, upstream repo = .ok (vis repo)) :
    ∃ cache2,
      Policy.ensure_allowed oso upstream [] now claims request =
        ((runFacts oso claims (factsOf vis request)).1, cache2,
         (runFacts oso claims (factsOf vis request)).2) := by
  cases request with
  | oxide r =>
    refine ⟨[], ?_⟩
    cases hout : oso claims (.oxide ⟨r.silo, (r.duration : Int)⟩) <;>
      simp [Policy.ensure_allowed, factsOf, runFacts, Policy.ensure_permutation, hout]
  | github r =>
    have hc : CacheConsistent vis ([] : VisCache) := fun k e hlk => nomatch hlk
    obtain ⟨cache2, heq⟩ :=
      repoLoop_eq_runFacts oso claims upstream vis now r.permissions hup r.repositories [] hc
    exact ⟨cache2, by simpa [Policy.ensure_allowed, factsOf] using heq⟩

/-- C5: for every verified claim set and token request, the policy
check returns success if and only if every atomic fact derived from the
request (one `{silo, duration}` fact for Oxide; one
`{repository, repository_visibility, permission}` fact per
repository × permission pair for GitHub) is allowed; evaluation stops
at the first denied fact and the denied fact's string rendering is the
surfaced `NotMatching` reason.  (Visibility lookups are assumed to
succeed, with `vis` the visibility of each repository.) -/
theorem policy_conjunction_short_circuit (oso : Oso)
    (upstream : Str → Except GitHubTokenError Str) (vis : Str → Str) (now : Int)
    (claims : Claims) (request : TokenRequest)
    (hup : ∀ repo, upstream repo = .ok (vis repo)) :
    ((Policy.ensure_allowed oso upstream [] now claims request).1 = .ok () ↔
      ∀ f ∈ factsOf vis request, oso claims f = .allow) ∧
    (∀ pre f post, factsOf vis request = pre ++ f :: post →
      (∀ g ∈ pre, oso claims g = .allow) → oso claims f = .deny →
      (Policy.ensure_allowed oso upstream [] now claims request).1 =
          .error (.notMatching f.display) ∧
        (Policy.ensure_allowed oso upstream [] now claims request).2.2 = pre ++ [f]) := by
  obtain ⟨cache2, heq⟩ := ensure_allowed_eq_runFacts oso upstream vis now claims request hup
  constructor
  · rw [heq]
    exact runFacts_ok_iff oso claims (factsOf vis request)
  · intro pre f post hsplit hall hdeny
    have hrf := runFacts_first_deny oso claims pre f post hall hdeny
    rw [heq, hsplit, hrf]
    exact ⟨rfl, rfl⟩

/-- Witness for C5: a concrete GitHub request whose two facts are both
allowed, evaluated through the policy check. -/
theorem policy_conjunction_short_circuit_witness :
    (Policy.ensure_allowed oso0 (fun _ => .ok "public".toList) [] 0
        (.GitHub GithubOidcClaims.none_)
        (.github ⟨["acme/app".toList, "acme/web".toList], ["contents:read".toList]⟩)).1 =
      .ok () :=
  (policy_conjunction_short_circuit oso0 (fun _ => .ok "public".toList)
      (fun _ => "public".toList) 0 (.GitHub GithubOidcClaims.none_)
      (.github ⟨["acme/app".toList, "acme/web".toList], ["contents:read".toList]⟩)
      (fun _ => rfl)).1.mpr (by decide)

/-- C9: if the visibility lookup for `r` at time `t` misses the cache
(no unexpired entry) and the upstream call succeeds, the cache entry is
stored with expiry one hour (3600 s) in the future, and any second call
for `r` at a time within that hour returns the cached visibility value
and issues no upstream repository-visibility call. -/
theorem visibility_cache_idempotent (cache : VisCache)
    (upstream : Str → Except GitHubTokenError Str) (t t2 : Int) (repo vis : Str)
    (hstale : ∀ e, cache.lookup repo = some e → e.expires_at < t)
    (hup : upstream repo = .ok vis)
    (hwithin : t2 ≤ t + 3600) :
    Policy.github_visibility cache upstream t repo =
      (.ok vis, insertVis repo ⟨vis, t + 3600⟩ cache, 1) ∧
    Policy.github_visibility (insertVis repo ⟨vis, t + 3600⟩ cache) upstream t2 repo =
      (.ok vis, insertVis repo ⟨vis, t + 3600⟩ cache, 0) := by
  constructor
  · cases hlk : cache.lookup repo with
    | none => simp [Policy.github_visibility, hlk, Policy.fetch_visibility, hup]
    | some cached =>
      have hexp := hstale cached hlk
      have hnfresh : ¬ cached.expires_at ≥ t := by omega
      simp [Policy.github_visibility, hlk, hnfresh, Policy.fetch_visibility, hup]
  · have hge : (t + 3600 : Int) ≥ t2 := by omega
    simp [Policy.github_visibility, lookup_insertVis_self, hge]

/-- Witness for C9 at a concrete repository, cache and clock. -/
theorem visibility_cache_idempotent_witness :
    Policy.github_visibility [] (fun _ => .ok "public".toList) 0 "acme/app".toList =
      (.ok "public".toList, [("acme/app".toList, ⟨"public".toList, 3600⟩)], 1) ∧
    Policy.github_visibility [("acme/app".toList, ⟨"public".toList, 3600⟩)]
        (fun _ => .ok "public".toList) 1800 "acme/app".toList =
      (.ok "public".toList, [("acme/app".toList, ⟨"public".toList, 3600⟩)], 0) := by
  have h := visibility_cache_idempotent [] (fun _ => .ok "public".toList) 0 1800
    "acme/app".toList "public".toList (fun e he => nomatch he) rfl (by omega)
  simpa [insertVis] using h

/-- C4 counterexample: with providers for issuers `A` and `B`
configured and a token whose `iss` is `B`, the handler attempts
validation against BOTH providers' verifiers (the attempt trace is
`[A, B]`, although `A ≠ B = iss`), and when nothing matches it responds
400 `NO_MATCH` "Token is not authorized for any resources" — not
400 "Unsupported issuer".  The handler never extracts `iss` nor selects
a single verifier by it. -/
theorem exchange_not_selected_by_iss_cx :
    exchange (fun _ => none) tokenB 0 [provA, provB] =
      (.error (.forBadRequest "NO_MATCH".toList
          "Token is not authorized for any resources".toList),
       ["A".toList, "B".toList]) ∧
    tokenB.claims.iss = some "B".toList ∧
    "A".toList ≠ "B".toList := by
  exact ⟨by decide, rfl, by decide⟩

theorem authzLoop_all_fail (cfg : ResolvedOidcConfig)
    (sdk_store : Str × Str → Option SdkClient) (token : Jwt) (now : Int) :
    ∀ authzs : List TokenAuthorizationE,
      (∀ a ∈ authzs, ∃ e, cfg.validate token a.token now = .error e) →
      authzLoop cfg sdk_store token now authzs =
        (.fellThrough, authzs.map (fun _ => cfg.issuer)) := by
  intro authzs
  induction authzs with
  | nil => intro _; rfl
  | cons a rest ih =>
    intro hfail
    obtain ⟨e, he⟩ := hfail a (List.mem_cons_self a rest)
    simp only [authzLoop, he, ih (fun x hx => hfail x (List.mem_cons_of_mem a hx)),
      List.map_cons]

/-- C4 amended: the handler does not decode the token's `iss` and does
not select a verifier by it; it attempts validation against EVERY
configured provider's verifier for each of its authorizations (in
configuration order), and when no authorization validates it responds
400 `NO_MATCH` "Token is not authorized for any resources". -/
theorem exchange_tries_all_providers (sdk_store : Str × Str → Option SdkClient)
    (token : Jwt) (now : Int) :
    ∀ providers : List ProviderE,
      (∀ p ∈ providers, ∀ a ∈ p.token_authorizations,
        ∃ e, p.config.validate token a.token now = .error e) →
      exchange sdk_store token now providers =
        (.error (.forBadRequest "NO_MATCH".toList
            "Token is not authorized for any resources".toList),
         providers.flatMap (fun p => p.token_authorizations.map (fun _ => p.config.issuer))) := by
  intro providers
  induction providers with
  | nil => intro _; rfl
  | cons p rest ih =>
    intro hfail
    have hloop := authzLoop_all_fail p.config sdk_store token now p.token_authorizations
      (hfail p (List.mem_cons_self p rest))
    simp only [exchange, hloop, ih (fun x hx => hfail x (List.mem_cons_of_mem p hx)),
      List.flatMap_cons]

/-- Witness for the amended C4 at a concrete provider list and token. -/
theorem exchange_tries_all_providers_witness :
    exchange (fun _ => none) tokenB 0 [provA] =
      (.error (.forBadRequest "NO_MATCH".toList
          "Token is not authorized for any resources".toList),
       ["A".toList]) :=
  exchange_tries_all_providers (fun _ => none) tokenB 0 [provA] (by
    intro p hp a ha
    rcases List.mem_singleton.mp hp with rfl
    rcases List.mem_singleton.mp ha with rfl
    exact ⟨.missingKid, by decide⟩)

